import Mathlib

/-!
Shallow embedding of `waveshareFontGenerator`, a Go tool that rasterizes the
printable ASCII glyphs (codepoints 32–126) of a vector font into a fixed-size
monochrome bitmap table emitted as a C array.

The repository has two variants of `main`:
  * `src/unnamed/part_000` — the explicit-offset variant: cell height and the
    x/y origin offsets are command-line flags, and an unsupported path-segment
    op is an explicit `log.Fatal`;
  * `src/main.go` — the metrics-derived variant: the cell height is derived
    from the font's metrics (with a `reducedHeight` flag), the origin is
    derived from the cap height, and the segment switch has no default case.

External capabilities (the sfnt font backend and the `vector` rasterizer) are
modelled as pure functions supplied as parameters: the corresponding Go
libraries are deterministic pure computations over their inputs.  Floating
point only occurs in coordinates handed to the opaque rasterizer, so the
embedding carries those coordinates as exact integers (the Go code converts
small integers to float32, which is exact below 2^24).
-/

set_option autoImplicit false

namespace WaveshareFontGen

/-- `fixed.I(i)`: converts an int to a 26.6 fixed-point value (`i << 6`). -/
def fixedI (i : Int) : Int := i * 64

/-- `fixed.Int26_6.Ceil()`: `int((x + 0x3f) >> 6)` — Go's `>>` on a signed
value is an arithmetic shift, i.e. floor division by 64. -/
def fixedCeil (x : Int) : Int := Int.fdiv (x + 63) 64

/-- Go's `/` on `int` truncates toward zero, which is `Int.tdiv` in Lean. -/
def goDiv (a b : Int) : Int := Int.tdiv a b

/-- `sfnt.Segment`: an op code (`sfnt.SegmentOp`, a `uint32` whose defined
constants are `SegmentOpMoveTo = 0`, `SegmentOpLineTo = 1`,
`SegmentOpQuadTo = 2`, `SegmentOpCubeTo = 3`) together with up to three
`fixed.Point26_6` control points. -/
structure Segment where
  op : Nat
  args : List (Int × Int)
deriving Repr, DecidableEq

/-- The four op codes matched by the `switch seg.Op` in both variants. -/
def isSupportedOp (op : Nat) : Bool :=
  op = 0 || op = 1 || op = 2 || op = 3

/-- The ways either variant's `main` dies via `log.Fatal` while processing a
glyph (each exits the process with status 1). -/
inductive FatalErr where
  | glyphIndexErr (msg : String)
  | glyphNotFound (codepoint : Nat)
  | metricsErr (msg : String)
  | loadGlyphErr (msg : String)
  | unsupportedSegment (op : Nat)
deriving Repr, DecidableEq

/-- `font.Metrics` fields used by the program, as 26.6 fixed-point values. -/
structure Metrics where
  height : Int
  capHeight : Int
  ascent : Int
  descent : Int
deriving Repr, DecidableEq

/-- The sfnt font backend, consumed through the three calls the program makes.
`glyphIndexRes c` is `f.GlyphIndex(buf, rune(c))`; `metricsRes ppem` is
`f.Metrics(buf, ppem, font.HintingFull)` at a 26.6 fixed ppem; and
`loadGlyphRes x ppem` is `f.LoadGlyph(buf, x, ppem, nil)`.  Each returns the
Go `(value, err)` pair as an `Except`. -/
structure FontFace where
  glyphIndexRes : Nat → Except String Nat
  metricsRes : Int → Except String Metrics
  loadGlyphRes : Nat → Int → Except String (List Segment)

/-- The `vector.Rasterizer` pipeline, consumed opaquely: given the cell width
and height (the `NewRasterizer` arguments), the float origin offsets (exact
integers in both variants), and the path segments applied to the rasterizer,
it yields the 8-bit alpha of each pixel of the `image.Alpha` destination
(`dst.AlphaAt(x, y).A`) after `r.Draw(dst, dst.Bounds(), image.Opaque, ...)`
with `r.DrawOp = draw.Src`.  The per-segment translation
`origin + float32(arg)/64` happens inside this opaque function. -/
def Rasterize : Type :=
  Int → Int → Int → Int → List Segment → Nat → Nat → Nat

/-- The thresholding in the packing loop: `if a < 64` write bit 0, else bit 1. -/
def pixelBit (a : Nat) : Bool :=
  if a < 64 then false else true

/-- State of an `github.com/icza/bitio` writer over a `bytes.Buffer`: the
bytes flushed so far, plus the partial byte (`cache`, filled MSB-first) and
how many bits of it are used. -/
structure BitWriter where
  bytes : List Nat
  cache : Nat
  nbits : Nat
deriving Repr, DecidableEq

/-- `w.WriteBits(b, 1)`: append one bit MSB-first; a full byte is flushed. -/
def BitWriter.writeBit (w : BitWriter) (b : Bool) : BitWriter :=
  let cache := w.cache * 2 + (if b then 1 else 0)
  if w.nbits = 7 then ⟨w.bytes ++ [cache], 0, 0⟩
  else ⟨w.bytes, cache, w.nbits + 1⟩

/-- `w.Close()`: pad any partial byte with zero bits (shifting the cached bits
to the top of the byte) and flush it. -/
def BitWriter.close (w : BitWriter) : List Nat :=
  if w.nbits = 0 then w.bytes else w.bytes ++ [w.cache * 2 ^ (8 - w.nbits)]

/-- The bytes produced by writing `bits` one at a time and closing the writer. -/
def packBits (bits : List Bool) : List Nat :=
  (bits.foldl BitWriter.writeBit ⟨[], 0, 0⟩).close

/-- The bit stream of one bitmap row: for `x` from `0` to `width-1`, the
thresholded bit of `dst.AlphaAt(x, y).A` (an 8-bit value, hence `% 256`). -/
def rowBits (cov : Nat → Nat → Nat) (width : Int) (y : Nat) : List Bool :=
  (List.range width.toNat).map (fun x => pixelBit (cov x y % 256))

/-- One emitted bitmap row: the packed bytes printed as `0x..` literals and
the `./#` comment string accumulated in `tmp`. -/
structure RowLine where
  bytes : List Nat
  comment : List Char
deriving Repr, DecidableEq

/-- The packing loop body for row `y`: write one thresholded bit per pixel
into a fresh bitio writer while accumulating the `./#` rendering, then close. -/
def packRow (cov : Nat → Nat → Nat) (width : Int) (y : Nat) : RowLine :=
  { bytes := packBits (rowBits cov width y)
    comment := (rowBits cov width y).map (fun b => if b then '#' else '.') }

/-- The glyph-block text emitted for one codepoint: the `// <char> <code>`
comment followed by one `RowLine` per bitmap row. -/
structure GlyphBlock where
  codepoint : Nat
  rows : List RowLine
deriving Repr, DecidableEq

/-- The segment loop of the explicit-offset variant (`src/unnamed/part_000`,
lines 106–139): each supported op is applied to the rasterizer; any other op
hits `default: log.Fatal("OP: ", seg.Op)`.  On success it returns the path
handed to the rasterizer (every segment, in order). -/
def buildPathExplicit : List Segment → Except FatalErr (List Segment)
  | [] => .ok []
  | s :: rest =>
    if isSupportedOp s.op then
      match buildPathExplicit rest with
      | .error e => .error e
      | .ok path => .ok (s :: path)
    else .error (.unsupportedSegment s.op)

/-- The segment loop of the metrics-derived variant (`src/main.go`, lines
106–137): the switch has no default case, so an op outside the four supported
kinds applies nothing to the rasterizer and the loop continues. -/
def buildPathSilent : List Segment → List Segment
  | [] => []
  | s :: rest =>
    if isSupportedOp s.op then s :: buildPathSilent rest
    else buildPathSilent rest

/-- The flags of the explicit-offset variant (`src/unnamed/part_000`):
`-w` width in bytes (default 2), `-h` height in lines (default 24), `-s` ppem
(default 20), `-x`/`-y` origin offsets (defaults 0 and 18), `-f` font path,
`-d` debug. -/
structure ConfigExplicit where
  width : Int
  height : Int
  ppem : Int
  xoffset : Int
  yoffset : Int
  font : String
  debug : Bool

/-- The flags of the metrics-derived variant (`src/main.go`): `-w` width in
bytes (default 2), `-r` reducedHeight (default −1), `-s` ppem (default 24),
`-f` font path. -/
structure ConfigMetrics where
  width : Int
  reduceHeight : Int
  ppem : Int
  font : String

/-- The cell height of the metrics-derived variant (`src/main.go`, lines
86–94): `height := i.Height.Ceil()`; if `reducedHeight >= 0` subtract it,
otherwise `height = height * 3 / 4 + 1` with Go's truncating division. -/
def cellHeightMetrics (cfg : ConfigMetrics) (metricsHeight : Int) : Int :=
  let h := fixedCeil metricsHeight
  if 0 ≤ cfg.reduceHeight then h - cfg.reduceHeight
  else goDiv (h * 3) 4 + 1

/-- One iteration of the glyph loop of the explicit-offset variant
(`src/unnamed/part_000`, lines 87–165) for codepoint `c`: resolve the glyph
index (fatal on error, fatal if 0), load the outline, apply the segments
(fatal on an unsupported op), rasterize into a `width×height` alpha image at
origin `(xoffset, yoffset)`, and pack each of the `height` rows. -/
def processGlyphExplicit (raster : Rasterize) (f : FontFace)
    (cfg : ConfigExplicit) (c : Nat) : Except FatalErr GlyphBlock :=
  match f.glyphIndexRes c with
  | .error e => .error (.glyphIndexErr e)
  | .ok x =>
    if x = 0 then .error (.glyphNotFound c)
    else
      match f.loadGlyphRes x (fixedI cfg.ppem) with
      | .error e => .error (.loadGlyphErr e)
      | .ok segments =>
        match buildPathExplicit segments with
        | .error e => .error e
        | .ok path =>
          let width := cfg.width * 8
          let cov := raster width cfg.height cfg.xoffset cfg.yoffset path
          .ok { codepoint := c
                rows := (List.range cfg.height.toNat).map (packRow cov width) }

/-- One iteration of the glyph loop of the metrics-derived variant
(`src/main.go`, lines 64–162) for codepoint `c`: resolve the glyph index
(fatal on error, fatal if 0), fetch the metrics (fatal on error), compute the
cell height from them, load the outline, apply the supported segments
(silently skipping any other op), rasterize at origin
`(0, -capHeight.Ceil() + 1)`, and pack each row. -/
def processGlyphMetrics (raster : Rasterize) (f : FontFace)
    (cfg : ConfigMetrics) (c : Nat) : Except FatalErr GlyphBlock :=
  match f.glyphIndexRes c with
  | .error e => .error (.glyphIndexErr e)
  | .ok x =>
    if x = 0 then .error (.glyphNotFound c)
    else
      match f.metricsRes (fixedI cfg.ppem) with
      | .error e => .error (.metricsErr e)
      | .ok m =>
        let width := cfg.width * 8
        let height := cellHeightMetrics cfg m.height
        let originX : Int := 0
        let originY : Int := fixedCeil m.capHeight * (-1) + 1
        match f.loadGlyphRes x (fixedI cfg.ppem) with
        | .error e => .error (.loadGlyphErr e)
        | .ok segments =>
          let path := buildPathSilent segments
          let cov := raster width height originX originY path
          .ok { codepoint := c
                rows := (List.range height.toNat).map (packRow cov width) }

/-- The printable codepoints: `for i := 32; i <= 126; i++`. -/
def codepoints : List Nat := List.range' 32 95

/-- The glyph loop with streaming emission: process codepoints in order; on
the first `log.Fatal` the process dies, so the blocks emitted so far remain
on stdout and no later codepoint is touched. -/
def runGlyphs (step : Nat → Except FatalErr GlyphBlock) :
    List Nat → List GlyphBlock × Option FatalErr
  | [] => ([], none)
  | c :: rest =>
    match step c with
    | .error e => ([], some e)
    | .ok blk =>
      let r := runGlyphs step rest
      (blk :: r.1, r.2)

/-- One structured line group of the program's stdout. -/
inductive OutLine where
  /-- The `#include "fonts.h"` preamble and the table opening. -/
  | header
  /-- `  // <char> <codepoint>` before a glyph's rows. -/
  | glyphComment (c : Nat)
  /-- `  0x.., 0x.., ...  // ..##..` for one bitmap row. -/
  | rowLine (bytes : List Nat) (bitmap : List Char)
  /-- The closing `};` of the table. -/
  | tableClose
  /-- `/* Based on font <path> */`. -/
  | basedOn (path : String)
  /-- The trailing `sFONT FontCustom` record: its two numeric fields, in the
  order printed (`%d, /* Width */` then `%d, /* Height */`). -/
  | descriptor (width : Int) (height : Int)
deriving Repr, DecidableEq

/-- The stdout lines of one glyph: its comment line, then its rows. -/
def emitBlock (blk : GlyphBlock) : List OutLine :=
  .glyphComment blk.codepoint :: blk.rows.map (fun r => .rowLine r.bytes r.comment)

/-- Observable outcome of a run: the structured stdout, the process exit
code, and whether `ioutil.ReadFile` on the font path was ever attempted. -/
structure RunResult where
  stdout : List OutLine
  exitCode : Nat
  fontRead : Bool
deriving Repr, DecidableEq

/-- Result of `parser.Parse()`: the positional arguments and the filled
config on success, or a help request, or any other flag error. -/
inductive ParseOutcome (Cfg : Type) where
  | ok (args : List String) (cfg : Cfg)
  | helpErr
  | otherErr

/-- `main` of the explicit-offset variant (`src/unnamed/part_000`).  Flag
errors exit before anything else; a positional argument is
`log.Fatal("do not provide additional parameters")` before the font file is
read; a font read error is `log.Println(err); return` (normal return, exit
status 0); a parse error is `log.Fatalf`; with `-d`, a metrics error is
`log.Fatalf` before the header is printed (the debug dump itself goes to the
log, not stdout); then the header, the streamed glyph blocks, and on full
success the close, the source-font comment and the descriptor, whose fields
are `width := conf.Width * 8` and `height := conf.Height`. -/
def mainExplicit (parse : ParseOutcome ConfigExplicit)
    (readFile : String → Option (List Nat))
    (parseFont : List Nat → Except String FontFace)
    (raster : Rasterize) : RunResult :=
  match parse with
  | .helpErr => ⟨[], 0, false⟩
  | .otherErr => ⟨[], 1, false⟩
  | .ok args cfg =>
    if 0 < args.length then ⟨[], 1, false⟩
    else
      match readFile cfg.font with
      | none => ⟨[], 0, true⟩
      | some fontBytes =>
        match parseFont fontBytes with
        | .error _ => ⟨[], 1, true⟩
        | .ok f =>
          if cfg.debug && !(f.metricsRes (fixedI cfg.ppem)).isOk then
            ⟨[], 1, true⟩
          else
            let r := runGlyphs (processGlyphExplicit raster f cfg) codepoints
            let body := OutLine.header :: r.1.flatMap emitBlock
            match r.2 with
            | some _ => ⟨body, 1, true⟩
            | none =>
              ⟨body ++ [.tableClose, .basedOn cfg.font,
                  .descriptor (cfg.width * 8) cfg.height], 0, true⟩

/-- `main` of the metrics-derived variant (`src/main.go`).  Same front matter
as the other variant; the loop is `processGlyphMetrics`; the descriptor
prints `widthP`/`heightP`, the width and height of the last loop iteration —
on a fully successful run these equal `conf.Width * 8` and the metrics cell
height (the metrics call succeeded in every iteration, so the `.error`
branch below is unreachable on the success path). -/
def mainMetrics (parse : ParseOutcome ConfigMetrics)
    (readFile : String → Option (List Nat))
    (parseFont : List Nat → Except String FontFace)
    (raster : Rasterize) : RunResult :=
  match parse with
  | .helpErr => ⟨[], 0, false⟩
  | .otherErr => ⟨[], 1, false⟩
  | .ok args cfg =>
    if 0 < args.length then ⟨[], 1, false⟩
    else
      match readFile cfg.font with
      | none => ⟨[], 0, true⟩
      | some fontBytes =>
        match parseFont fontBytes with
        | .error _ => ⟨[], 1, true⟩
        | .ok f =>
          let r := runGlyphs (processGlyphMetrics raster f cfg) codepoints
          let body := OutLine.header :: r.1.flatMap emitBlock
          match r.2 with
          | some _ => ⟨body, 1, true⟩
          | none =>
            match f.metricsRes (fixedI cfg.ppem) with
            | .error _ => ⟨body, 1, true⟩
            | .ok m =>
              ⟨body ++ [.tableClose, .basedOn cfg.font,
                  .descriptor (cfg.width * 8) (cellHeightMetrics cfg m.height)],
                0, true⟩

/-! Concrete instances of the external capabilities, used to evaluate the
pipeline at specific inputs. -/

/-- A rasterizer oracle producing coverage 0 everywhere. -/
def exRaster : Rasterize := fun _ _ _ _ _ _ _ => 0

/-- A font whose every codepoint maps to glyph index 1 with an empty outline. -/
def exFont : FontFace where
  glyphIndexRes := fun _ => .ok 1
  metricsRes := fun _ => .ok ⟨64, 64, 48, 16⟩
  loadGlyphRes := fun _ _ => .ok []

/-- A font like `exFont` whose every outline is a single segment with the
unsupported op code 99. -/
def exFontBadSeg : FontFace where
  glyphIndexRes := fun _ => .ok 1
  metricsRes := fun _ => .ok ⟨64, 64, 48, 16⟩
  loadGlyphRes := fun _ _ => .ok [⟨99, []⟩]

/-- A font that reports glyph index 0 (no mapping) for every codepoint. -/
def exFontNoGlyph : FontFace where
  glyphIndexRes := fun _ => .ok 0
  metricsRes := fun _ => .ok ⟨64, 64, 48, 16⟩
  loadGlyphRes := fun _ _ => .ok []

/-- Explicit-variant flags: 2 bytes wide, 1 row high, defaults elsewhere. -/
def exCfgE : ConfigExplicit := ⟨2, 1, 20, 0, 18, "font.ttf", false⟩

/-- Metrics-variant flags: width 0, reducedHeight 1 (with `exFont`'s metrics
height of 64 this makes the cell height 0), default ppem. -/
def exCfgM : ConfigMetrics := ⟨0, 1, 24, "font.ttf"⟩

/-- A filesystem on which every path reads as an empty file. -/
def exRead : String → Option (List Nat) := fun _ => some []

/-- A filesystem on which every read fails. -/
def exReadFail : String → Option (List Nat) := fun _ => none

/-- An sfnt parser that accepts any bytes as the given face. -/
def constParseFont (f : FontFace) : List Nat → Except String FontFace :=
  fun _ => .ok f

/-- A coverage buffer whose leftmost 8 pixels of every row are fully opaque
and whose remaining pixels are fully transparent. -/
def exCovLeft8 : Nat → Nat → Nat := fun x _ => if x < 8 then 255 else 0

/-- The glyph blocks of a full successful run of the explicit-offset glyph
loop over `exFont` with `exCfgE`. -/
def exBlocksE : List GlyphBlock :=
  (runGlyphs (processGlyphExplicit exRaster exFont exCfgE) codepoints).1

/-! Supporting lemmas. -/

theorem pixelBit_eq_decide (a : Nat) : pixelBit a = decide (64 ≤ a) := by
  unfold pixelBit
  by_cases h : a < 64
  · rw [if_pos h]
    exact (decide_eq_false (by omega)).symm
  · rw [if_neg h]
    exact (decide_eq_true (by omega)).symm

theorem rowBits_getD (cov : Nat → Nat → Nat) (width : Int) (y x : Nat)
    (hx : x < width.toNat) :
    (rowBits cov width y).getD x false = decide (64 ≤ cov x y % 256) := by
  unfold rowBits
  rw [List.getD_eq_getElem?_getD, List.getElem?_map, List.getElem?_range hx]
  simp [pixelBit_eq_decide]

theorem foldl_writeBit_false8 (bs : List Nat) :
    List.foldl BitWriter.writeBit ⟨bs, 0, 0⟩ (List.replicate 8 false)
      = ⟨bs ++ [0], 0, 0⟩ := by
  simp [List.replicate, BitWriter.writeBit]

theorem foldl_writeBit_false_mul8 (bs : List Nat) (k : Nat) :
    List.foldl BitWriter.writeBit ⟨bs, 0, 0⟩ (List.replicate (8 * k) false)
      = ⟨bs ++ List.replicate k 0, 0, 0⟩ := by
  induction k generalizing bs with
  | zero => simp
  | succ n ih =>
    have h8 : 8 * (n + 1) = 8 + 8 * n := by ring
    rw [h8, List.replicate_add, List.foldl_append, foldl_writeBit_false8, ih]
    simp [List.replicate_succ]

theorem foldl_writeBit_true8 :
    List.foldl BitWriter.writeBit ⟨[], 0, 0⟩ (List.replicate 8 true)
      = ⟨[255], 0, 0⟩ := by
  simp [List.replicate, BitWriter.writeBit]

theorem packBits_left8 (k : Nat) :
    packBits (List.replicate 8 true ++ List.replicate (8 * k) false)
      = 255 :: List.replicate k 0 := by
  unfold packBits
  rw [List.foldl_append, foldl_writeBit_true8, foldl_writeBit_false_mul8]
  simp [BitWriter.close]

theorem rowBits_left8 (cov : Nat → Nat → Nat) (w y : Nat) (hw : 1 ≤ w)
    (h1 : ∀ x < 8, 64 ≤ cov x y % 256)
    (h2 : ∀ x, 8 ≤ x → cov x y % 256 = 0) :
    rowBits cov ((w : Int) * 8) y
      = List.replicate 8 true ++ List.replicate (8 * (w - 1)) false := by
  unfold rowBits
  have ht : ((w : Int) * 8).toNat = 8 * w := by
    have : ((w : Int) * 8) = ((8 * w : Nat) : Int) := by push_cast; ring
    rw [this, Int.toNat_natCast]
  rw [ht]
  have hsplit : List.range (8 * w)
      = List.range 8 ++ (List.range (8 * (w - 1))).map (8 + ·) := by
    have h : 8 * w = 8 + 8 * (w - 1) := by omega
    rw [h, List.range_add]
  rw [hsplit, List.map_append, List.map_map]
  congr 1
  · rw [List.eq_replicate_iff]
    refine ⟨by simp, ?_⟩
    intro b hb
    simp only [List.mem_map, List.mem_range] at hb
    obtain ⟨x, hx, rfl⟩ := hb
    rw [pixelBit_eq_decide]
    simpa using h1 x hx
  · rw [List.eq_replicate_iff]
    refine ⟨by simp, ?_⟩
    intro b hb
    simp only [List.mem_map, List.mem_range, Function.comp] at hb
    obtain ⟨x, hx, rfl⟩ := hb
    rw [pixelBit_eq_decide, h2 (8 + x) (by omega)]
    simp

theorem processGlyphExplicit_ok {raster : Rasterize} {f : FontFace}
    {cfg : ConfigExplicit} {c : Nat} {blk : GlyphBlock}
    (h : processGlyphExplicit raster f cfg c = .ok blk) :
    blk.codepoint = c ∧ blk.rows.length = cfg.height.toNat := by
  unfold processGlyphExplicit at h
  split at h
  · exact absurd h (by simp)
  · split at h
    · exact absurd h (by simp)
    · split at h
      · exact absurd h (by simp)
      · split at h
        · exact absurd h (by simp)
        · simp only [Except.ok.injEq] at h
          subst h
          simp

theorem processGlyphMetrics_codepoint {raster : Rasterize} {f : FontFace}
    {cfg : ConfigMetrics} {c : Nat} {blk : GlyphBlock}
    (h : processGlyphMetrics raster f cfg c = .ok blk) :
    blk.codepoint = c := by
  unfold processGlyphMetrics at h
  split at h
  · exact absurd h (by simp)
  · split at h
    · exact absurd h (by simp)
    · split at h
      · exact absurd h (by simp)
      · split at h
        · exact absurd h (by simp)
        · simp only [Except.ok.injEq] at h
          subst h
          simp

theorem runGlyphs_ok {step : Nat → Except FatalErr GlyphBlock} {n : Nat}
    (hstep : ∀ c blk, step c = .ok blk → blk.codepoint = c ∧ blk.rows.length = n) :
    ∀ cs bs, runGlyphs step cs = (bs, none) →
      bs.map (fun b => b.codepoint) = cs ∧ ∀ blk ∈ bs, blk.rows.length = n := by
  intro cs
  induction cs with
  | nil =>
    intro bs h
    simp only [runGlyphs, Prod.mk.injEq] at h
    simp [← h.1]
  | cons c rest ih =>
    intro bs h
    cases hc : step c with
    | error e => simp [runGlyphs, hc] at h
    | ok blk =>
      simp only [runGlyphs, hc, Prod.mk.injEq] at h
      obtain ⟨h1, h2⟩ := h
      obtain ⟨ih1, ih2⟩ := ih (runGlyphs step rest).1 (by rw [← h2])
      subst h1
      refine ⟨by simp [ih1, (hstep c blk hc).1], ?_⟩
      intro b hb
      rcases List.mem_cons.mp hb with hb | hb
      · subst hb; exact (hstep c b hc).2
      · exact ih2 b hb

theorem runGlyphs_stop {step : Nat → Except FatalErr GlyphBlock} {e : FatalErr}
    (hcp : ∀ c blk, step c = .ok blk → blk.codepoint = c) :
    ∀ (cs1 : List Nat) (c : Nat) (cs2 : List Nat),
      (∀ c' ∈ cs1, ∃ blk, step c' = .ok blk) → step c = .error e →
      (runGlyphs step (cs1 ++ c :: cs2)).2 = some e ∧
      (runGlyphs step (cs1 ++ c :: cs2)).1.map (fun b => b.codepoint) = cs1 := by
  intro cs1
  induction cs1 with
  | nil =>
    intro c cs2 _ hc
    simp [runGlyphs, hc]
  | cons a rest ih =>
    intro c cs2 hok hc
    obtain ⟨blk, hblk⟩ := hok a (by simp)
    have hrest := ih c cs2 (fun c' hc' => hok c' (by simp [hc'])) hc
    simp [runGlyphs, hblk, hrest.1, hrest.2, hcp a blk hblk]

theorem codepoints_split (c : Nat) (h1 : 32 ≤ c) (h2 : c ≤ 126) :
    codepoints = List.range' 32 (c - 32) ++ c :: List.range' (c + 1) (126 - c) := by
  unfold codepoints
  have hc : c :: List.range' (c + 1) (126 - c) = List.range' c (126 - c + 1) :=
    (List.range'_succ c (126 - c) 1).symm
  rw [hc]
  have happ := List.range'_append 32 (c - 32) (126 - c + 1) 1
  have hs : 32 + 1 * (c - 32) = c := by omega
  rw [hs] at happ
  rw [happ]
  congr 1
  omega

theorem buildPathExplicit_unsupported {segs : List Segment} {s : Segment}
    (hs : s ∈ segs) (hop : isSupportedOp s.op = false) :
    ∃ op, isSupportedOp op = false ∧
      buildPathExplicit segs = .error (.unsupportedSegment op) := by
  induction segs with
  | nil => cases hs
  | cons t rest ih =>
    by_cases ht : isSupportedOp t.op
    · have hs' : s ∈ rest := by
        rcases List.mem_cons.mp hs with h | h
        · subst h
          rw [hop] at ht
          cases ht
        · exact h
      obtain ⟨op, hop', herr⟩ := ih hs'
      refine ⟨op, hop', ?_⟩
      simp [buildPathExplicit, ht, herr]
    · refine ⟨t.op, by simpa using ht, ?_⟩
      simp [buildPathExplicit, ht]

theorem buildPathSilent_supported {segs : List Segment} :
    ∀ t ∈ buildPathSilent segs, isSupportedOp t.op = true := by
  induction segs with
  | nil => intro t ht; cases ht
  | cons s rest ih =>
    intro t ht
    by_cases hop : isSupportedOp s.op
    · simp only [buildPathSilent, if_pos hop] at ht
      rcases List.mem_cons.mp ht with h | h
      · subst h; exact hop
      · exact ih t h
    · simp only [buildPathSilent, if_neg hop] at ht
      exact ih t ht

theorem fixedCeil_bounds (x : Int) :
    64 * (fixedCeil x - 1) < x ∧ x ≤ 64 * fixedCeil x := by
  unfold fixedCeil
  rw [Int.fdiv_eq_ediv _ (by norm_num)]
  constructor <;> omega

theorem fixedCeil_nonneg {x : Int} (hx : 0 ≤ x) : 0 ≤ fixedCeil x := by
  unfold fixedCeil
  rw [Int.fdiv_eq_ediv _ (by norm_num)]
  omega

/-! Claims. -/

/-- C4: in the packing loop, the bit appended for a pixel is 1 exactly when
its 8-bit coverage value is at least 64; at the boundary, coverage 63 packs
to bit 0 and coverage 64 packs to bit 1. -/
theorem claim4_threshold (cov : Nat → Nat → Nat) (width : Int) (y x : Nat)
    (hx : x < width.toNat) :
    ((rowBits cov width y).getD x false = true ↔ 64 ≤ cov x y % 256) ∧
    pixelBit 63 = false ∧ pixelBit 64 = true := by
  refine ⟨?_, by decide, by decide⟩
  rw [rowBits_getD cov width y x hx]
  simp

/-- Witness for C4 at coverage row `exCovLeft8`, pixel 3 of a 16-pixel row. -/
theorem claim4_threshold_witness :
    ((rowBits exCovLeft8 16 0).getD 3 false = true ↔ 64 ≤ exCovLeft8 3 0 % 256) ∧
    pixelBit 63 = false ∧ pixelBit 64 = true :=
  claim4_threshold exCovLeft8 16 0 3 (by decide)

/-- C6: bits pack MSB-first and bytes left to right: a row whose leftmost 8
pixels have coverage at least 64 and whose remaining pixels have coverage 0
packs to the byte 0xFF followed by only 0x00 bytes. -/
theorem claim6_bit_order (cov : Nat → Nat → Nat) (w y : Nat) (hw : 1 ≤ w)
    (h1 : ∀ x < 8, 64 ≤ cov x y % 256)
    (h2 : ∀ x, 8 ≤ x → cov x y % 256 = 0) :
    (packRow cov ((w : Int) * 8) y).bytes = 255 :: List.replicate (w - 1) 0 := by
  unfold packRow
  simp only
  rw [rowBits_left8 cov w y hw h1 h2, packBits_left8]

/-- Witness for C6 at the 2-byte-wide coverage row `exCovLeft8`. -/
theorem claim6_bit_order_witness :
    (packRow exCovLeft8 (((2 : Nat) : Int) * 8) 0).bytes
      = 255 :: List.replicate (2 - 1) 0 :=
  claim6_bit_order exCovLeft8 2 0 (by decide) (by decide)
    (fun x hx => by simp [exCovLeft8, Nat.not_lt.mpr hx])

/-- C8: in the metrics-derived variant, for a nonnegative 26.6 fixed-point
metrics height: with a negative reducedHeight flag the cell height is
⌊(⌈h⌉ · 3) / 4⌋ + 1 (`Int.fdiv` is floor division), and with a nonnegative
reducedHeight it is ⌈h⌉ − reducedHeight, where `fixedCeil h` is exactly the
ceiling of the metrics height in pixels, as the last two conjuncts state. -/
theorem claim8_cell_height (w p r mh : Int) (path : String) (hmh : 0 ≤ mh) :
    (r < 0 → cellHeightMetrics ⟨w, r, p, path⟩ mh
        = Int.fdiv (fixedCeil mh * 3) 4 + 1) ∧
    (0 ≤ r → cellHeightMetrics ⟨w, r, p, path⟩ mh = fixedCeil mh - r) ∧
    64 * (fixedCeil mh - 1) < mh ∧ mh ≤ 64 * fixedCeil mh := by
  refine ⟨?_, ?_, (fixedCeil_bounds mh).1, (fixedCeil_bounds mh).2⟩
  · intro hr
    unfold cellHeightMetrics goDiv
    dsimp only
    rw [if_neg (by omega)]
    have h0 : (0 : Int) ≤ fixedCeil mh := fixedCeil_nonneg hmh
    have h3 : (0 : Int) ≤ fixedCeil mh * 3 := by omega
    rw [Int.tdiv_eq_ediv h3 (by norm_num), Int.fdiv_eq_ediv _ (by norm_num)]
  · intro hr
    unfold cellHeightMetrics
    dsimp only
    rw [if_pos hr]

/-- Witness for C8 at metrics height 100 (26.6 fixed), reducedHeight −1. -/
theorem claim8_cell_height_witness :
    ((-1 : Int) < 0 → cellHeightMetrics ⟨2, -1, 24, "font.ttf"⟩ 100
        = Int.fdiv (fixedCeil 100 * 3) 4 + 1) ∧
    ((0 : Int) ≤ -1 → cellHeightMetrics ⟨2, -1, 24, "font.ttf"⟩ 100
        = fixedCeil 100 - -1) ∧
    64 * (fixedCeil 100 - 1) < (100 : Int) ∧ (100 : Int) ≤ 64 * fixedCeil 100 :=
  claim8_cell_height 2 24 (-1) 100 "font.ttf" (by norm_num)

/-- C9: the pipeline is deterministic — the run's observable outcome depends
only on the flag values and the bytes the filesystem yields for the
configured font path: two runs whose filesystems agree there coincide. -/
theorem claim9_deterministic (cfg : ConfigExplicit)
    (read1 read2 : String → Option (List Nat))
    (parseFont : List Nat → Except String FontFace) (raster : Rasterize)
    (h : read1 cfg.font = read2 cfg.font) :
    mainExplicit (.ok [] cfg) read1 parseFont raster
      = mainExplicit (.ok [] cfg) read2 parseFont raster := by
  simp only [mainExplicit]
  rw [h]

/-- Witness for C9: two runs over the same filesystem. -/
theorem claim9_deterministic_witness :
    mainExplicit (.ok [] exCfgE) exRead (constParseFont exFont) exRaster
      = mainExplicit (.ok [] exCfgE) exRead (constParseFont exFont) exRaster :=
  claim9_deterministic exCfgE exRead exRead (constParseFont exFont) exRaster rfl

/-- C10: a positional command-line argument is fatal (exit code 1) before the
font file is read and before anything reaches stdout, in both variants. -/
theorem claim10_positional_args (argsE argsM : List String)
    (cfgE : ConfigExplicit) (cfgM : ConfigMetrics)
    (readFile : String → Option (List Nat))
    (parseFont : List Nat → Except String FontFace) (raster : Rasterize)
    (hE : argsE ≠ []) (hM : argsM ≠ []) :
    mainExplicit (.ok argsE cfgE) readFile parseFont raster = ⟨[], 1, false⟩ ∧
    mainMetrics (.ok argsM cfgM) readFile parseFont raster = ⟨[], 1, false⟩ := by
  constructor
  · simp only [mainExplicit]
    rw [if_pos (List.length_pos.mpr hE)]
  · simp only [mainMetrics]
    rw [if_pos (List.length_pos.mpr hM)]

/-- Witness for C10 with one positional argument. -/
theorem claim10_positional_args_witness :
    mainExplicit (.ok ["extra"] exCfgE) exRead (constParseFont exFont) exRaster
        = ⟨[], 1, false⟩ ∧
    mainMetrics (.ok ["extra"] exCfgM) exRead (constParseFont exFont) exRaster
        = ⟨[], 1, false⟩ :=
  claim10_positional_args ["extra"] ["extra"] exCfgE exCfgM exRead
    (constParseFont exFont) exRaster (by simp) (by simp)

/-- C3 counterexample: with a filesystem on which every read fails, both
variants handle the missing font with `log.Println(err); return` — a normal
return from `main`, so the process exit code is 0, not 1 as claimed. -/
theorem claim3_counterexample :
    (mainExplicit (.ok [] exCfgE) exReadFail (constParseFont exFont)
        exRaster).exitCode ≠ 1 ∧
    (mainMetrics (.ok [] exCfgM) exReadFail (constParseFont exFont)
        exRaster).exitCode ≠ 1 := by
  decide

/-- C3 amended: if the font file cannot be read, both variants terminate
without writing any table output to stdout, but via a normal return with
process exit code 0 (the read is attempted, `log.Println` goes to stderr). -/
theorem claim3_amended (cfgE : ConfigExplicit) (cfgM : ConfigMetrics)
    (readFile : String → Option (List Nat))
    (parseFont : List Nat → Except String FontFace) (raster : Rasterize)
    (hE : readFile cfgE.font = none) (hM : readFile cfgM.font = none) :
    mainExplicit (.ok [] cfgE) readFile parseFont raster = ⟨[], 0, true⟩ ∧
    mainMetrics (.ok [] cfgM) readFile parseFont raster = ⟨[], 0, true⟩ := by
  constructor
  · simp only [mainExplicit]
    rw [if_neg (by simp), hE]
  · simp only [mainMetrics]
    rw [if_neg (by simp), hM]

/-- Witness for C3 amended on the always-failing filesystem. -/
theorem claim3_amended_witness :
    mainExplicit (.ok [] exCfgE) exReadFail (constParseFont exFont) exRaster
        = ⟨[], 0, true⟩ ∧
    mainMetrics (.ok [] exCfgM) exReadFail (constParseFont exFont) exRaster
        = ⟨[], 0, true⟩ :=
  claim3_amended exCfgE exCfgM exReadFail (constParseFont exFont) exRaster rfl rfl

/-- C5: a run of the glyph loop that completes without a fatal error yields
exactly 95 glyph blocks, one per codepoint from 32 to 126 in strictly
ascending order, each with exactly the cell height's number of rows. -/
theorem claim5_completeness (raster : Rasterize) (f : FontFace)
    (cfg : ConfigExplicit) (blocks : List GlyphBlock)
    (hh : 0 ≤ cfg.height)
    (h : runGlyphs (processGlyphExplicit raster f cfg) codepoints
      = (blocks, none)) :
    blocks.length = 95 ∧
    blocks.map (fun b => b.codepoint) = List.range' 32 95 ∧
    ∀ blk ∈ blocks, (blk.rows.length : Int) = cfg.height := by
  obtain ⟨h1, h2⟩ :=
    runGlyphs_ok (fun c blk hb => processGlyphExplicit_ok hb) codepoints blocks h
  refine ⟨?_, by rw [h1]; rfl, ?_⟩
  · have hlen := congrArg List.length h1
    simpa [codepoints] using hlen
  · intro blk hblk
    rw [h2 blk hblk]
    exact Int.toNat_of_nonneg hh

/-- Witness for C5 on a full run over `exFont`. -/
theorem claim5_completeness_witness :
    exBlocksE.length = 95 ∧
    exBlocksE.map (fun b => b.codepoint) = List.range' 32 95 ∧
    ∀ blk ∈ exBlocksE, (blk.rows.length : Int) = exCfgE.height :=
  claim5_completeness exRaster exFont exCfgE exBlocksE (by decide) (by decide)

/-- C2 counterexample: in the metrics-derived variant the segment switch has
no default case, so an outline whose only command has the unsupported op 99
(`exFontBadSeg`) is silently skipped: a full run completes with exit code 0
and the glyph loop reports no error at all. -/
theorem claim2_counterexample :
    (mainMetrics (.ok [] exCfgM) exRead (constParseFont exFontBadSeg)
        exRaster).exitCode = 0 ∧
    (runGlyphs (processGlyphMetrics exRaster exFontBadSeg exCfgM)
        codepoints).2 = none := by
  decide

/-- C2 amended: a path command outside the four supported kinds is a fatal
unsupported-segment error in the explicit-offset variant only; the
metrics-derived variant's switch has no default case, so such a command is
silently dropped (it never enters the path handed to the rasterizer). -/
theorem claim2_amended (raster : Rasterize) (f : FontFace)
    (cfg : ConfigExplicit) (c x : Nat) (segs : List Segment) (s : Segment)
    (hidx : f.glyphIndexRes c = .ok x) (hx : x ≠ 0)
    (hload : f.loadGlyphRes x (fixedI cfg.ppem) = .ok segs)
    (hs : s ∈ segs) (hop : isSupportedOp s.op = false) :
    (∃ op, isSupportedOp op = false ∧
      processGlyphExplicit raster f cfg c = .error (.unsupportedSegment op)) ∧
    s ∉ buildPathSilent segs := by
  constructor
  · obtain ⟨op, hop', herr⟩ := buildPathExplicit_unsupported hs hop
    refine ⟨op, hop', ?_⟩
    simp only [processGlyphExplicit]
    rw [hidx]
    simp only [if_neg hx]
    rw [hload]
    simp only [herr]
  · intro hmem
    have hsup := buildPathSilent_supported s hmem
    rw [hop] at hsup
    cases hsup

/-- Witness for C2 amended at `exFontBadSeg`'s op-99 outline. -/
theorem claim2_amended_witness :
    (∃ op, isSupportedOp op = false ∧
      processGlyphExplicit exRaster exFontBadSeg exCfgE 32
        = .error (.unsupportedSegment op)) ∧
    (⟨99, []⟩ : Segment) ∉ buildPathSilent [⟨99, []⟩] :=
  claim2_amended exRaster exFontBadSeg exCfgE 32 1 [⟨99, []⟩] ⟨99, []⟩
    rfl (by decide) rfl (by decide) (by decide)

/-- C7: if a codepoint in 32–126 resolves to glyph index 0 while every
earlier codepoint processes successfully, both variants terminate fatally at
that codepoint with the glyph-not-found error, and the blocks emitted so far
cover exactly the codepoints strictly before it — no later codepoint is
processed. -/
theorem claim7_missing_glyph (raster : Rasterize) (f : FontFace)
    (cfgE : ConfigExplicit) (cfgM : ConfigMetrics) (c : Nat)
    (h1 : 32 ≤ c) (h2 : c ≤ 126)
    (hidx : f.glyphIndexRes c = .ok 0)
    (hprevE : ∀ c', 32 ≤ c' → c' < c →
      ∃ blk, processGlyphExplicit raster f cfgE c' = .ok blk)
    (hprevM : ∀ c', 32 ≤ c' → c' < c →
      ∃ blk, processGlyphMetrics raster f cfgM c' = .ok blk) :
    ((runGlyphs (processGlyphExplicit raster f cfgE) codepoints).2
        = some (.glyphNotFound c) ∧
      (runGlyphs (processGlyphExplicit raster f cfgE) codepoints).1.map
        (fun b => b.codepoint) = List.range' 32 (c - 32)) ∧
    ((runGlyphs (processGlyphMetrics raster f cfgM) codepoints).2
        = some (.glyphNotFound c) ∧
      (runGlyphs (processGlyphMetrics raster f cfgM) codepoints).1.map
        (fun b => b.codepoint) = List.range' 32 (c - 32)) := by
  have hstepE : processGlyphExplicit raster f cfgE c = .error (.glyphNotFound c) := by
    simp only [processGlyphExplicit]
    rw [hidx]
    simp
  have hstepM : processGlyphMetrics raster f cfgM c = .error (.glyphNotFound c) := by
    simp only [processGlyphMetrics]
    rw [hidx]
    simp
  rw [codepoints_split c h1 h2]
  constructor
  · exact runGlyphs_stop (fun c' blk hb => (processGlyphExplicit_ok hb).1)
      (List.range' 32 (c - 32)) c (List.range' (c + 1) (126 - c))
      (fun c' hc' => by
        have hb := List.mem_range'_1.mp hc'
        exact hprevE c' hb.1 (by omega))
      hstepE
  · exact runGlyphs_stop (fun c' blk hb => processGlyphMetrics_codepoint hb)
      (List.range' 32 (c - 32)) c (List.range' (c + 1) (126 - c))
      (fun c' hc' => by
        have hb := List.mem_range'_1.mp hc'
        exact hprevM c' hb.1 (by omega))
      hstepM

/-- Witness for C7: a font with no mapping at all dies at codepoint 32. -/
theorem claim7_missing_glyph_witness :
    ((runGlyphs (processGlyphExplicit exRaster exFontNoGlyph exCfgE)
        codepoints).2 = some (.glyphNotFound 32) ∧
      (runGlyphs (processGlyphExplicit exRaster exFontNoGlyph exCfgE)
        codepoints).1.map (fun b => b.codepoint) = List.range' 32 (32 - 32)) ∧
    ((runGlyphs (processGlyphMetrics exRaster exFontNoGlyph exCfgM)
        codepoints).2 = some (.glyphNotFound 32) ∧
      (runGlyphs (processGlyphMetrics exRaster exFontNoGlyph exCfgM)
        codepoints).1.map (fun b => b.codepoint) = List.range' 32 (32 - 32)) :=
  claim7_missing_glyph exRaster exFontNoGlyph exCfgE exCfgM 32
    (by decide) (by decide) rfl
    (fun c' hc1 hc2 => absurd (Nat.lt_of_lt_of_le hc2 hc1) (Nat.lt_irrefl c'))
    (fun c' hc1 hc2 => absurd (Nat.lt_of_lt_of_le hc2 hc1) (Nat.lt_irrefl c'))

/-- C1 counterexample: a successful run of the explicit-offset variant with
`--width 2` and `--height 1` ends with a descriptor whose first numeric field
is 16 = 2·8 — the pixel width — and 16 is not the configured
width-in-bytes 2. -/
theorem claim1_counterexample :
    (mainExplicit (.ok [] exCfgE) exRead (constParseFont exFont)
        exRaster).stdout.getLast? = some (.descriptor 16 1) ∧
    (16 : Int) ≠ 2 := by
  decide

/-- C1 amended: the trailing sFONT descriptor's first numeric field is the
pixel width, 8 × the `--width` flag (the width in bytes), not the flag value
itself; the second field is the cell height (in the metrics variant, the
metrics-derived cell height). -/
theorem claim1_descriptor (cfgE : ConfigExplicit) (cfgM : ConfigMetrics)
    (readFile : String → Option (List Nat))
    (parseFont : List Nat → Except String FontFace) (raster : Rasterize)
    (bytesE bytesM : List Nat) (fE fM : FontFace) (m : Metrics)
    (hrE : readFile cfgE.font = some bytesE)
    (hpE : parseFont bytesE = .ok fE)
    (hdbg : cfgE.debug = false)
    (hokE : (runGlyphs (processGlyphExplicit raster fE cfgE) codepoints).2 = none)
    (hrM : readFile cfgM.font = some bytesM)
    (hpM : parseFont bytesM = .ok fM)
    (hokM : (runGlyphs (processGlyphMetrics raster fM cfgM) codepoints).2 = none)
    (hm : fM.metricsRes (fixedI cfgM.ppem) = .ok m) :
    (mainExplicit (.ok [] cfgE) readFile parseFont raster).stdout.getLast?
        = some (.descriptor (cfgE.width * 8) cfgE.height) ∧
    (mainMetrics (.ok [] cfgM) readFile parseFont raster).stdout.getLast?
        = some (.descriptor (cfgM.width * 8)
            (cellHeightMetrics cfgM m.height)) := by
  constructor
  · simp only [mainExplicit]
    rw [if_neg (by simp), hrE]
    simp only [hpE, hdbg, Bool.false_and]
    rw [if_neg Bool.false_ne_true]
    simp only [hokE, List.cons_append]
    rw [← List.cons_append, List.getLast?_append]
    rfl
  · simp only [mainMetrics]
    rw [if_neg (by simp), hrM]
    simp only [hpM, hokM, hm, List.cons_append]
    rw [← List.cons_append, List.getLast?_append]
    rfl

/-- Witness for C1 amended: fully successful runs of both variants. -/
theorem claim1_descriptor_witness :
    (mainExplicit (.ok [] exCfgE) exRead (constParseFont exFont)
        exRaster).stdout.getLast?
      = some (.descriptor (exCfgE.width * 8) exCfgE.height) ∧
    (mainMetrics (.ok [] exCfgM) exRead (constParseFont exFont)
        exRaster).stdout.getLast?
      = some (.descriptor (exCfgM.width * 8)
          (cellHeightMetrics exCfgM (Metrics.mk 64 64 48 16).height)) :=
  claim1_descriptor exCfgE exCfgM exRead (constParseFont exFont) exRaster
    [] [] exFont exFont ⟨64, 64, 48, 16⟩ rfl rfl rfl (by decide)
    rfl rfl (by decide) rfl

end WaveshareFontGen
